import Mathlib

/-!
Shallow embedding of the pygeodesy module sphericalTrigonometry (file
src/pygeodesy/sphericalTrigonometry.py) over exact rational arithmetic.

Machine floats are modelled by the rationals.  The module's collaborators
(fmath, formy, utily, points, vector3d, sphericalBase) are repository code
that is not part of the sources under verification: their transcendental
primitives (sin, cos, atan2, haversine, bearing, wrap/normalize helpers,
vector angles) are abstracted as fields of a parameter structure Prim of
rational-valued functions, and the small algebraic helpers whose behaviour
is load-bearing (favg, fsum, acos1, unrollPI, points2, cross, sumOf,
n-vector conversion) are modelled from the specification, each marked by a
doc comment starting with: Modelled from the spec.
-/

namespace PyGeo

/-- Source: class LatLon - geodetic point with latitude and longitude in
degrees and a height, as constructed by LatLon(lat, lon, height). -/
structure LatLon where
  lat : ℚ
  lon : ℚ
  height : ℚ
deriving DecidableEq, Repr, Inhabited

/-- Modelled from the spec: the vector3d collaborator's 3-component real
vector (spec section 2, Vector). -/
structure V3 where
  x : ℚ
  y : ℚ
  z : ℚ
deriving DecidableEq, Repr, Inhabited

/-- Modelled from the spec: vector cross product (vector3d.Vector3d.cross,
spec section 2: cross product whose direction encodes traversal order). -/
def cross (a b : V3) : V3 :=
  ⟨a.y * b.z - a.z * b.y, a.z * b.x - a.x * b.z, a.x * b.y - a.y * b.x⟩

/-- Modelled from the spec: component-wise sum of several vectors
(vector3d.sumOf, spec section 4.8: sum all vertex n-vectors as 3-D
vectors). -/
def sumOf (vs : List V3) : V3 :=
  ⟨(vs.map V3.x).sum, (vs.map V3.y).sum, (vs.map V3.z).sum⟩

/-- Abstraction of the transcendental and angular primitives imported from
the repository modules fmath, formy, utily and vector3d, which are not
under src/.  Each field stands for the identically-named library function;
EPS, PI2 and PI_2 stand for the constants epsilon, 2*pi and pi/2.
haversine a2 a1 db stands for formy.haversine_(a2, a1, db);
bearing a1 b1 a2 b2 wrap stands for formy.bearing_(a1, b1, a2, b2,
final=False, wrap=wrap); angle g n stands for g.angleTo(n); angleS g1 g2 n
stands for g1.angleTo(g2, vSign=n); to2ll v stands for v.to2ll(). -/
structure Prim where
  EPS : ℚ
  PI2 : ℚ
  PI_2 : ℚ
  sin : ℚ → ℚ
  cos : ℚ → ℚ
  asin : ℚ → ℚ
  acos : ℚ → ℚ
  atan2 : ℚ → ℚ → ℚ
  hypot : ℚ → ℚ → ℚ
  radians : ℚ → ℚ
  degrees : ℚ → ℚ
  radiansPI2 : ℚ → ℚ
  degrees90 : ℚ → ℚ
  degrees180 : ℚ → ℚ
  tan_2 : ℚ → ℚ
  wrapPI : ℚ → ℚ
  haversine : ℚ → ℚ → ℚ → ℚ
  bearing : ℚ → ℚ → ℚ → ℚ → Bool → ℚ
  angle : V3 → V3 → ℚ
  angleS : V3 → V3 → V3 → ℚ
  to2ll : V3 → ℚ × ℚ

/-- Source: the distinguishable failures raised by the module (ValueError
messages of _trackDistanceTo3, points2, intersection and isenclosedBy),
as the error taxonomy of spec section 7. -/
inductive GeoError where
  | invalidRadius
  | fewPoints
  | parallel
  | infinite
  | ambiguous
  | nonConvex
deriving DecidableEq, Repr

/-- Modelled from the spec: fmath.favg, the fractional average
v1 + f * (v2 - v1); used with f = 1/2 for plain averaging. -/
def favg (v1 v2 f : ℚ) : ℚ := v1 + f * (v2 - v1)

/-- Modelled from the spec: fmath.fmean, the arithmetic mean of a list. -/
def fmean (xs : List ℚ) : ℚ := xs.sum / xs.length

/-- Modelled from the spec: fmath.acos1, inverse cosine with its argument
clamped into the closed interval from -1 to 1 (spec section 4.2:
each argument clamped to absorb floating round-off). -/
def acos1 (P : Prim) (q : ℚ) : ℚ := P.acos (max (-1) (min 1 q))

/-- Modelled from the spec: math.copysign over exact arithmetic - the
magnitude of the first argument with the sign of the second (a float +0.0
second argument yields the positive magnitude). -/
def copysign (m s : ℚ) : ℚ := if s < 0 then -|m| else |m|

/-- Modelled from the spec: utily.unrollPI - unroll the difference of two
longitudes (radians): when wrap is set the difference is normalized by
wrapPI into the principal interval and the second longitude is replaced by
the first plus the normalized difference; otherwise the raw difference and
the raw second longitude are returned (spec glossary: unrolling adjusts a
longitude difference to its minimal-magnitude equivalent). -/
def unrollPI (P : Prim) (b1 b2 : ℚ) (wrap : Bool) : ℚ × ℚ :=
  if wrap then
    let d := P.wrapPI (b2 - b1)
    (d, b1 + d)
  else
    (b2 - b1, b2)

/-- Modelled from the spec: points.points2 - validate a sequence of
points.  When closed, a polygon is auto-closed: an explicit closing point
equal to the first is dropped, and at least 3 vertices are required; an
open path requires at least 2 points (spec sections 3 and 7). -/
def points2 (points : List LatLon) (closed : Bool) : Except GeoError (List LatLon) :=
  let l := if closed ∧ 2 ≤ points.length ∧ points.head? = points.getLast? then
             points.dropLast else points
  if l.length < (if closed then 3 else 2) then .error .fewPoints else .ok l

/-- Modelled from the spec: LatLonBase.to3xyz composed with
LatLon.toVector3d - the n-vector of a point (spec glossary: a unit 3-D
vector from the sphere's center to a point on its surface). -/
def toVector3d (P : Prim) (p : LatLon) : V3 :=
  let a := P.radians p.lat
  let b := P.radians p.lon
  ⟨P.cos a * P.cos b, P.cos a * P.sin b, P.sin a⟩

/-- Source: LatLon.distanceTo (lines 204-229) - unroll the longitudes,
take the haversine angular distance and scale by the radius. -/
def distanceTo (P : Prim) (p other : LatLon) (radius : ℚ) (wrap : Bool) : ℚ :=
  let a1 := P.radians p.lat
  let b1 := P.radians p.lon
  let a2 := P.radians other.lat
  let b2 := P.radians other.lon
  let u := unrollPI P b1 b2 wrap
  P.haversine a2 a1 u.1 * radius

/-- Source: LatLon.initialBearingTo (lines 258-293) with raiser=False -
degrees of formy.bearing_ over the radian coordinates. -/
def initialBearingTo (P : Prim) (p other : LatLon) (wrap : Bool) : ℚ :=
  P.degrees (P.bearing (P.radians p.lat) (P.radians p.lon)
                       (P.radians other.lat) (P.radians other.lon) wrap)

/-- Source: LatLon._trackDistanceTo3 (lines 55-70) - validate the radius
strictly against EPS, then compute the angular distance r from start to
this point, the bearing b from start to this point, the bearing e from
start to end, and the cross-track angle x; returns (r, x, e - b). -/
def trackDistanceTo3 (P : Prim) (p start e : LatLon) (radius : ℚ) (wrap : Bool) :
    Except GeoError (ℚ × ℚ × ℚ) :=
  if radius < P.EPS then .error .invalidRadius
  else
    let r := distanceTo P start p radius wrap / radius
    let b := P.radians (initialBearingTo P start p wrap)
    let e2 := P.radians (initialBearingTo P start e wrap)
    let x := P.asin (P.sin r * P.sin (b - e2))
    .ok (r, x, e2 - b)

/-- Source: LatLon.alongTrackDistanceTo (lines 72-107) - copysign of the
clamped inverse cosine of cos r / cos x when cos x is not within EPS of
zero, else exactly 0, scaled by the radius. -/
def alongTrackDistanceTo (P : Prim) (p start e : LatLon) (radius : ℚ) (wrap : Bool) :
    Except GeoError ℚ :=
  match trackDistanceTo3 P p start e radius wrap with
  | .error err => .error err
  | .ok (r, x, b) =>
    let cx := P.cos x
    if |cx| > P.EPS then
      .ok (copysign (acos1 P (P.cos r / cx)) (P.cos b) * radius)
    else
      .ok 0

/-- Source: LatLon.crossTrackDistanceTo (lines 149-172) - the cross-track
angle times the radius. -/
def crossTrackDistanceTo (P : Prim) (p start e : LatLon) (radius : ℚ) (wrap : Bool) :
    Except GeoError ℚ :=
  match trackDistanceTo3 P p start e radius wrap with
  | .error err => .error err
  | .ok (_, x, _) => .ok (x * radius)

/-- Source: _destination2 (lines 598-616) - destination latitude and
longitude (degrees90, degrees180) from radian latitude a, longitude b,
angular distance r and bearing t. -/
def destination2 (P : Prim) (a b r t : ℚ) : ℚ × ℚ :=
  let ca := P.cos a
  let cr := P.cos r
  let ct := P.cos t
  let sa := P.sin a
  let sr := P.sin r
  let st := P.sin t
  let a2 := P.asin (ct * sr * ca + cr * sa)
  let d := P.atan2 (st * sr * ca) (cr - sa * P.sin a2)
  (P.degrees90 a2, P.degrees180 (b + d))

/-- Source: LatLon.destination (lines 174-202) - angular distance is
distance / radius, bearing converted to radians, then _destination2. -/
def destination (P : Prim) (p : LatLon) (distance bearing : ℚ) (radius : ℚ)
    (height : Option ℚ) : LatLon :=
  let a := P.radians p.lat
  let b := P.radians p.lon
  let r := distance / radius
  let t := P.radians bearing
  let ab := destination2 P a b r t
  ⟨ab.1, ab.2, height.getD p.height⟩

/-- Source: LatLon.midpointTo (lines 456-492) - spherical midpoint with
unrolled longitudes, normalized by degrees90 and degrees180; height is the
average of the two heights unless overridden. -/
def midpointTo (P : Prim) (p other : LatLon) (height : Option ℚ) (wrap : Bool) : LatLon :=
  let a1 := P.radians p.lat
  let b1 := P.radians p.lon
  let a2 := P.radians other.lat
  let b2 := P.radians other.lon
  let u := unrollPI P b1 b2 wrap
  let x := P.cos a2 * P.cos u.1 + P.cos a1
  let y := P.cos a2 * P.sin u.1
  let a := P.atan2 (P.sin a1 + P.sin a2) (P.hypot x y)
  let b := P.atan2 y x + b1
  ⟨P.degrees90 a, P.degrees180 b, height.getD (favg p.height other.height (1/2))⟩

/-- Source: LatLon.intermediateTo (lines 295-348) - fractional point on
the great circle when the angular separation is not degenerate, else the
fractional coordinate average; both branches are normalized by degrees90
and degrees180 on return. -/
def intermediateTo (P : Prim) (p other : LatLon) (fraction : ℚ) (height : Option ℚ)
    (wrap : Bool) : LatLon :=
  let a1 := P.radians p.lat
  let b1 := P.radians p.lon
  let a2 := P.radians other.lat
  let b2r := P.radians other.lon
  let u := unrollPI P b1 b2r wrap
  let b2 := u.2
  let r := P.haversine a2 a1 u.1
  let sr := P.sin r
  let ab :=
    if |sr| > P.EPS then
      let A := P.sin ((1 - fraction) * r) / sr
      let B := P.sin (fraction * r) / sr
      let x := A * P.cos a1 * P.cos b1 + B * P.cos a2 * P.cos b2
      let y := A * P.cos a1 * P.sin b1 + B * P.cos a2 * P.sin b2
      let z := A * P.sin a1 + B * P.sin a2
      (P.atan2 z (P.hypot x y), P.atan2 y x)
    else
      (favg a1 a2 fraction, favg b1 b2 fraction)
  let h := height.getD (favg p.height other.height (1/2))
  ⟨P.degrees90 ab.1, P.degrees180 ab.2, h⟩

/-- Source: meanOf (lines 775-802) - geographic mean: sum of the vertex
n-vectors converted back to latitude and longitude by to2ll; height is the
mean of the vertex heights unless overridden. -/
def meanOf (P : Prim) (points : List LatLon) (height : Option ℚ) :
    Except GeoError LatLon :=
  match points2 points false with
  | .error e => .error e
  | .ok l =>
    let m := sumOf (l.map (toVector3d P))
    let ab := P.to2ll m
    let h := height.getD (fmean (l.map LatLon.height))
    .ok ⟨ab.1, ab.2, h⟩

/-! ## Great-circle intersection (source lines 690-766)

The stages of the intersection computation are named individually so that
the error-taxonomy theorems can refer to the exact quantities the source
computes.  The names follow the source variables: db and b2 from unrollPI,
r12 the haversine separation of the starts, x1 and x2 the triangle-side
sines sin(r12)*cos(lat), t1 and t2 the base angles, t12 and t21 the
bearings toward the other start, w1 and w2 the wrapped turn angles
(the source reuses the names x1 and x2 for them), sx1 and sx2 their
sines. -/

/-- Source: intersection line 726 - unrolled longitude difference of the
two start points. -/
def intx_db (P : Prim) (s1 s2 : LatLon) (wrap : Bool) : ℚ :=
  (unrollPI P (P.radians s1.lon) (P.radians s2.lon) wrap).1

/-- Source: intersection line 726 - unrolled longitude of the second
start point. -/
def intx_b2 (P : Prim) (s1 s2 : LatLon) (wrap : Bool) : ℚ :=
  (unrollPI P (P.radians s1.lon) (P.radians s2.lon) wrap).2

/-- Source: intersection line 727 - haversine angular separation of the
two start points. -/
def intx_r12 (P : Prim) (s1 s2 : LatLon) (wrap : Bool) : ℚ :=
  P.haversine (P.radians s2.lat) (P.radians s1.lat) (intx_db P s1 s2 wrap)

/-- Source: intersection line 734 - first triangle-side sine
sin(r12) * cos(lat1). -/
def intx_x1 (P : Prim) (s1 s2 : LatLon) (wrap : Bool) : ℚ :=
  P.sin (intx_r12 P s1 s2 wrap) * P.cos (P.radians s1.lat)

/-- Source: intersection line 734 - second triangle-side sine
sin(r12) * cos(lat2). -/
def intx_x2 (P : Prim) (s1 s2 : LatLon) (wrap : Bool) : ℚ :=
  P.sin (intx_r12 P s1 s2 wrap) * P.cos (P.radians s2.lat)

/-- Source: intersection lines 741-742 - first base angle of the
spherical triangle, argument clamped by acos1. -/
def intx_t1 (P : Prim) (s1 s2 : LatLon) (wrap : Bool) : ℚ :=
  acos1 P ((P.sin (P.radians s2.lat) -
            P.sin (P.radians s1.lat) * P.cos (intx_r12 P s1 s2 wrap)) /
           intx_x1 P s1 s2 wrap)

/-- Source: intersection lines 741-742 - second base angle of the
spherical triangle, argument clamped by acos1. -/
def intx_t2 (P : Prim) (s1 s2 : LatLon) (wrap : Bool) : ℚ :=
  acos1 P ((P.sin (P.radians s1.lat) -
            P.sin (P.radians s2.lat) * P.cos (intx_r12 P s1 s2 wrap)) /
           intx_x2 P s1 s2 wrap)

/-- Source: intersection lines 743-746 - bearing from start1 toward
start2, disambiguated by the sign of sin(db). -/
def intx_t12 (P : Prim) (s1 s2 : LatLon) (wrap : Bool) : ℚ :=
  if P.sin (intx_db P s1 s2 wrap) > 0 then intx_t1 P s1 s2 wrap
  else P.PI2 - intx_t1 P s1 s2 wrap

/-- Source: intersection lines 743-746 - bearing from start2 toward
start1, disambiguated by the sign of sin(db). -/
def intx_t21 (P : Prim) (s1 s2 : LatLon) (wrap : Bool) : ℚ :=
  if P.sin (intx_db P s1 s2 wrap) > 0 then P.PI2 - intx_t2 P s1 s2 wrap
  else intx_t2 P s1 s2 wrap

/-- Source: intersection lines 748-750 - first turn angle (angle 2-1-3),
the wrapped difference of path 1's own bearing and the bearing toward
start2. -/
def intx_w1 (P : Prim) (s1 : LatLon) (bearing1 : ℚ) (s2 : LatLon) (wrap : Bool) : ℚ :=
  P.wrapPI (P.radiansPI2 bearing1 - intx_t12 P s1 s2 wrap)

/-- Source: intersection lines 748-750 - second turn angle (angle 1-2-3),
the wrapped difference of the bearing toward start1 and path 2's own
bearing. -/
def intx_w2 (P : Prim) (s1 s2 : LatLon) (bearing2 : ℚ) (wrap : Bool) : ℚ :=
  P.wrapPI (intx_t21 P s1 s2 wrap - P.radiansPI2 bearing2)

/-- Source: intersection line 752 - sine of the first turn angle. -/
def intx_sx1 (P : Prim) (s1 : LatLon) (bearing1 : ℚ) (s2 : LatLon) (wrap : Bool) : ℚ :=
  P.sin (intx_w1 P s1 bearing1 s2 wrap)

/-- Source: intersection line 752 - sine of the second turn angle. -/
def intx_sx2 (P : Prim) (s1 s2 : LatLon) (bearing2 : ℚ) (wrap : Bool) : ℚ :=
  P.sin (intx_w2 P s1 s2 bearing2 wrap)

/-- Source: function intersection (lines 690-766) - compute the
intersection point of two paths given by start points and initial
bearings.  Coincident starts (haversine separation within EPS) yield the
plain coordinate average; otherwise the spherical triangle is solved and
the failure taxonomy is: parallel when either triangle-side sine is
within EPS of zero, infinite when both turn-angle sines are zero,
ambiguous when their product is negative; else the destination from
start1 at the derived distance and bearing. -/
def intersection (P : Prim) (start1 : LatLon) (bearing1 : ℚ) (start2 : LatLon)
    (bearing2 : ℚ) (height : Option ℚ) (wrap : Bool) : Except GeoError LatLon :=
  let a1 := P.radians start1.lat
  let b1 := P.radians start1.lon
  let a2 := P.radians start2.lat
  let h := height.getD (favg start1.height start2.height (1/2))
  if |intx_r12 P start1 start2 wrap| < P.EPS then
    .ok ⟨P.degrees (favg a1 a2 (1/2)),
         P.degrees (favg b1 (intx_b2 P start1 start2 wrap) (1/2)), h⟩
  else if |intx_x1 P start1 start2 wrap| < P.EPS ∨
          |intx_x2 P start1 start2 wrap| < P.EPS then
    .error .parallel
  else
    let sx1 := intx_sx1 P start1 bearing1 start2 wrap
    let sx2 := intx_sx2 P start1 start2 bearing2 wrap
    if sx1 = 0 ∧ sx2 = 0 then .error .infinite
    else
      let sx3 := sx1 * sx2
      if sx3 < 0 then .error .ambiguous
      else
        let cx1 := P.cos (intx_w1 P start1 bearing1 start2 wrap)
        let cx2 := P.cos (intx_w2 P start1 start2 bearing2 wrap)
        let cr12 := P.cos (intx_r12 P start1 start2 wrap)
        let sr12 := P.sin (intx_r12 P start1 start2 wrap)
        let x3 := acos1 P (cr12 * sx3 - cx2 * cx1)
        let r13 := P.atan2 (sr12 * sx3) (cx2 + cx1 * P.cos x3)
        let ab := destination2 P a1 b1 r13 (P.radiansPI2 bearing1)
        .ok ⟨ab.1, ab.2, h⟩

/-! ## Spherical polygon area (source lines 619-687) -/

/-- Source: isPoleEnclosedBy (lines 769-772) - deprecated wrapper
forwarding to points.ispolar with the given wrap flag (default False in
the source).  The predicate ispolar itself lives in the points module,
outside src/, and is therefore passed in as the function pol. -/
def isPoleEnclosedBy (pol : List LatLon → Bool → Bool) (points : List LatLon)
    (wrap : Bool) : Bool :=
  pol points wrap

/-- Source: areaOf lines 660-682 - the threaded edge-excess iteration:
carry the half-latitude tangent ta1 of the previous vertex and the
(possibly unrolled) previous longitude b1, and for each next vertex yield
atan2(tan(db/2) * (ta1 + ta2), 1 + ta1 * ta2).  Both source branches
(generator and list) perform this identical recursion. -/
def exsGo (P : Prim) (wrap : Bool) : ℚ → ℚ → List LatLon → List ℚ
  | _, _, [] => []
  | ta1, b1, q :: qs =>
    let a2 := P.radians q.lat
    let u := unrollPI P b1 (P.radians q.lon) wrap
    let ta2 := P.tan_2 a2
    let tdb := P.tan_2 u.1
    P.atan2 (tdb * (ta1 + ta2)) (1 + ta1 * ta2) :: exsGo P wrap ta2 u.2 qs

/-- Source: function areaOf (lines 619-687) - validate and auto-close the
polygon, sum the edge excesses (fsum modelled as the exact rational sum)
and double, subtract 2*pi from the absolute sum when a pole is enclosed
(the pole test is consulted with its default wrap=False, line 684), and
return the absolute value of the sum times the squared radius. -/
def areaOf (P : Prim) (pol : List LatLon → Bool → Bool) (points : List LatLon)
    (radius : ℚ) (wrap : Bool) : Except GeoError ℚ :=
  match points2 points true with
  | .error e => .error e
  | .ok l =>
    let p0 := l.getLastD default
    let s := (exsGo P wrap (P.tan_2 (P.radians p0.lat)) (P.radians p0.lon) l).sum * 2
    let s2 := if isPoleEnclosedBy pol l false then |s| - P.PI2 else s
    .ok |s2 * radius ^ 2|

/-! ## Perimeter (source lines 842-872) -/

/-- Source: perimeterOf lines 862-869 - the threaded angular edge-length
iteration: carry the previous radian latitude a1 and (possibly unrolled)
longitude b1 and yield the haversine length of each edge. -/
def radsGo (P : Prim) (wrap : Bool) : ℚ → ℚ → List LatLon → List ℚ
  | _, _, [] => []
  | a1, b1, q :: qs =>
    let a2 := P.radians q.lat
    let u := unrollPI P b1 (P.radians q.lon) wrap
    P.haversine a2 a1 u.1 :: radsGo P wrap a2 u.2 qs

/-- Source: function perimeterOf (lines 842-872) - validate the points,
then sum the haversine edge lengths (starting from the last point and
walking all n edges when closed, per points._imdex2, else the n-1
consecutive edges) and scale by the radius. -/
def perimeterOf (P : Prim) (points : List LatLon) (closed : Bool) (radius : ℚ)
    (wrap : Bool) : Except GeoError ℚ :=
  match points2 points closed with
  | .error e => .error e
  | .ok l =>
    let r :=
      if closed then
        let p0 := l.getLastD default
        (radsGo P wrap (P.radians p0.lat) (P.radians p0.lon) l).sum
      else
        let p0 := l.headD default
        (radsGo P wrap (P.radians p0.lat) (P.radians p0.lon) l.tail).sum
    .ok (r * radius)

/-! ## Convex-polygon enclosure (source lines 381-449) -/

/-- Edge list of a closed traversal: the pair (last, first) followed by
the consecutive pairs, in the order both source loops visit them. -/
def cyclicPairs {α : Type} [Inhabited α] (l : List α) : List (α × α) :=
  (l.getLastD default :: l).zip l

/-- Source: isenclosedBy lines 406-408 and 424-429 - the great-circle
normal of each edge, cross product of consecutive vertex n-vectors
starting from the edge (last, first). -/
def gcsOf (P : Prim) (l : List LatLon) : List V3 :=
  (cyclicPairs l).map (fun pr => cross (toVector3d P pr.1) (toVector3d P pr.2))

/-- The edge normals generated by walking from a previous vertex through
a list of vertices: the normals of edges (prev, q0), (q0, q1), ... -/
def edgeNormals (P : Prim) (prev : LatLon) (qs : List LatLon) : List V3 :=
  ((prev :: qs).zip qs).map (fun pr => cross (toVector3d P pr.1) (toVector3d P pr.2))

/-- Source: isenclosedBy lines 410-421 - the fused loop of the
bulk-numeric-array branch: for each vertex form the edge normal, return
False at the first side-classification differing from t0, raise non-convex
at the first negative signed angle between consecutive normals. -/
def enclosedLoopN (P : Prim) (n0 : V3) (t0 : Bool) : V3 → V3 → List LatLon →
    Except GeoError Bool
  | _, _, [] => .ok true
  | v1, gc1, q :: qs =>
    let v2 := toVector3d P q
    let gc := cross v1 v2
    let ti := decide (P.PI_2 < P.angle gc n0)
    if ti ≠ t0 then .ok false
    else if P.angleS gc1 gc n0 < 0 then .error .nonConvex
    else enclosedLoopN P n0 t0 v2 gc qs

/-- Source: isenclosedBy lines 404-421 - the bulk-numeric-array
(iterNumpy2) branch: the reference classification t0 is taken from the
LAST edge (points[n-2] to points[n-1]) and the side and convexity checks
are interleaved in a single pass. -/
def isenclosedNumpy (P : Prim) (n0 : V3) (l : List LatLon) : Except GeoError Bool :=
  let v1 := toVector3d P (l.getLastD default)
  let v2 := toVector3d P (l.dropLast.getLastD default)
  let gc1 := cross v2 v1
  let t0 := decide (P.PI_2 < P.angle gc1 n0)
  enclosedLoopN P n0 t0 v1 gc1 l

/-- Source: isenclosedBy lines 423-449 - the plain-sequence branch: build
all edge normals first, take the reference classification t0 from the
FIRST edge, return False at the first differing classification, and only
then walk all consecutive normal pairs raising non-convex at the first
negative signed angle. -/
def isenclosedPlain (P : Prim) (n0 : V3) (l : List LatLon) : Except GeoError Bool :=
  let gcs := gcsOf P l
  let t0 := decide (P.PI_2 < P.angle (gcs.headD default) n0)
  if gcs.tail.any (fun g => decide (P.PI_2 < P.angle g n0) != t0) then .ok false
  else if (cyclicPairs gcs).any (fun pr => decide (P.angleS pr.1 pr.2 n0 < 0)) then
    .error .nonConvex
  else .ok true

/-- Source: LatLon.isenclosedBy (lines 381-449) - validate and auto-close
the polygon, then dispatch on utily.iterNumpy2 (a container-kind test,
outside src/, modelled as the Boolean isNumpy) to one of the two
branches. -/
def isenclosedBy (P : Prim) (isNumpy : Bool) (p : LatLon) (points : List LatLon) :
    Except GeoError Bool :=
  match points2 points true with
  | .error e => .error e
  | .ok l =>
    let n0 := toVector3d P p
    if isNumpy then isenclosedNumpy P n0 l else isenclosedPlain P n0 l

/-! ## Claim-side definitions and list helpers -/

/-- Consecutive pairs of a list (the open edge walk). -/
def consecPairs {α : Type} (l : List α) : List (α × α) := l.zip l.tail

/-- Rotate a list by one position, moving the last element to the
front. -/
def rot1 {α : Type} [Inhabited α] : List α → List α
  | [] => []
  | l => l.getLastD default :: l.dropLast

/-- The sign function used by the claims: -1 for negative arguments and
+1 otherwise (matching copysign with a float +0.0 sign argument). -/
def signQ (t : ℚ) : ℚ := if t < 0 then -1 else 1

/-- Claim C3 formula: with r the haversine angular distance from start to
query, b the initial bearing from start to query, e the initial bearing
from start to end and x = asin(sin r * sin(b - e)), the along-track
distance is sign(cos(b - e)) * acos(clamp(cos r / cos x, -1, 1)) * radius,
except exactly 0 when the magnitude of cos x is within EPS of zero. -/
def alongTrackSpec (P : Prim) (p start e : LatLon) (radius : ℚ) (wrap : Bool) : ℚ :=
  let r := P.haversine (P.radians p.lat) (P.radians start.lat)
             (unrollPI P (P.radians start.lon) (P.radians p.lon) wrap).1
  let b := P.radians (initialBearingTo P start p wrap)
  let e2 := P.radians (initialBearingTo P start e wrap)
  let x := P.asin (P.sin r * P.sin (b - e2))
  let cx := P.cos x
  if |cx| > P.EPS then
    signQ (P.cos (b - e2)) * P.acos (max (-1) (min 1 (P.cos r / cx))) * radius
  else 0

/-- The collapsed per-edge excess half-term of areaOf: the same formula
the source's threaded loop computes, expressed over a single edge with
its own wrapped longitude difference (collapsing the unroll threading). -/
def exsPair (P : Prim) (wrap : Bool) (e : LatLon × LatLon) : ℚ :=
  let ta1 := P.tan_2 (P.radians e.1.lat)
  let ta2 := P.tan_2 (P.radians e.2.lat)
  let db := if wrap then P.wrapPI (P.radians e.2.lon - P.radians e.1.lon)
            else P.radians e.2.lon - P.radians e.1.lon
  P.atan2 (P.tan_2 db * (ta1 + ta2)) (1 + ta1 * ta2)

/-- Claim C2 formula for one edge: the spherical excess term
2 * atan2(tan(db/2) * (tan(lat1/2) + tan(lat2/2)),
1 + tan(lat1/2) * tan(lat2/2)) with db the per-edge longitude
difference, unrolled when wrap is set. -/
def excessSpec (P : Prim) (wrap : Bool) (e : LatLon × LatLon) : ℚ :=
  let ta1 := P.tan_2 (P.radians e.1.lat)
  let ta2 := P.tan_2 (P.radians e.2.lat)
  let db := if wrap then P.wrapPI (P.radians e.2.lon - P.radians e.1.lon)
            else P.radians e.2.lon - P.radians e.1.lon
  2 * P.atan2 (P.tan_2 db * (ta1 + ta2)) (1 + ta1 * ta2)

/-- The collapsed half-excess sum of areaOf: the sum of the per-edge
terms over the closed traversal (the source's threaded loop computes
exactly this once the unroll threading is collapsed). -/
def areaSum (P : Prim) (wrap : Bool) (l : List LatLon) : ℚ :=
  ((cyclicPairs l).map (exsPair P wrap)).sum

/-- Claim C2 formula for the whole polygon: S is the (error-compensated,
here exact) sum of the per-edge excess terms; when a pole lies inside, S
is replaced by the absolute sum minus 2*pi; the area is the absolute
value of the result times the squared radius. -/
def areaOfSpec (P : Prim) (poleInside : Bool) (l : List LatLon) (radius : ℚ)
    (wrap : Bool) : ℚ :=
  let S := ((cyclicPairs l).map (excessSpec P wrap)).sum
  let S2 := if poleInside then |S| - P.PI2 else S
  |S2| * radius ^ 2

/-- Point with latitude in the canonical closed range from -90 to 90 and
longitude in the canonical half-open range from above -180 to 180 (spec
section 6). -/
def inRange (p : LatLon) : Prop :=
  (-90 ≤ p.lat ∧ p.lat ≤ 90) ∧ (-180 < p.lon ∧ p.lon ≤ 180)

/-! ## Concrete Prim instances for witnesses and counterexamples -/

/-- A trivial primitive instance over the rationals: identity conversions,
zero trigonometry, unit haversine separation and EPS = 1.  Used to
evaluate the structural theorems at concrete inputs. -/
def Ptriv : Prim where
  EPS := 1
  PI2 := 0
  PI_2 := 0
  sin := fun _ => 0
  cos := fun _ => 0
  asin := fun _ => 0
  acos := fun _ => 0
  atan2 := fun _ _ => 0
  hypot := fun _ _ => 0
  radians := fun x => x
  degrees := fun x => x
  radiansPI2 := fun x => x
  degrees90 := fun _ => 0
  degrees180 := fun _ => 0
  tan_2 := fun x => x
  wrapPI := fun _ => 0
  haversine := fun _ _ _ => 1
  bearing := fun _ _ _ _ _ => 0
  angle := fun _ _ => 0
  angleS := fun _ _ _ => 0
  to2ll := fun _ => (0, 0)

/-- Instance for the C4 counterexample: every edge excess half-term is 1
and the full-sphere constant 2*pi is 4, so the pole adjustment visibly
changes the area. -/
def P4inst : Prim := { Ptriv with atan2 := fun _ _ => 1, PI2 := 4 }

/-- Instance for the C5 and C10 counterexamples: vertex n-vectors of the
form ((lat+10)*10, 0, lat), edge normals classified by their y-component
against PI_2 = 0, and a signed angle that is negative exactly between two
normals of y-component 100. -/
def P5inst : Prim :=
  { Ptriv with
    sin := fun x => x
    cos := fun x => x + 10
    angle := fun g _ => g.y
    angleS := fun g h _ => if g.y = 100 ∧ h.y = 100 then (-1 : ℚ) else 0 }

/-- The triangle for the C5 and C10 counterexamples: classifications of
its three edges against the query come out true, false, true. -/
def pts5 : List LatLon := [⟨1, 0, 0⟩, ⟨3, 0, 0⟩, ⟨2, 0, 0⟩]

/-- The query point for the C5 and C10 counterexamples. -/
def q5 : LatLon := ⟨0, 0, 0⟩

/-- The triangle for the C4 counterexample. -/
def pts4 : List LatLon := [⟨0, 0, 0⟩, ⟨1, 0, 0⟩, ⟨2, 0, 0⟩]

/-- Pole predicate for the C4 counterexample that returns the wrap flag
it is consulted with. -/
def polA4 : List LatLon → Bool → Bool := fun _ b => b

/-- Pole predicate for the C4 counterexample that always reports a pole
enclosed.  It agrees with polA4 whenever consulted with wrap=True. -/
def polB4 : List LatLon → Bool → Bool := fun _ _ => true

/-- Instance for the C7 counterexample: coincident starts (zero haversine
separation), identity degree conversion, and a one-fold longitude wrap
into the half-open interval from above -180 to 180 (coordinates are kept
in degrees by the identity radians). -/
def P7inst : Prim :=
  { Ptriv with
    haversine := fun _ _ _ => 0
    wrapPI := fun x => if x ≤ -180 then x + 360 else if 180 < x then x - 360 else x }

/-! ## Helper lemmas -/

/-- copysign is the sign of its second argument times the magnitude of
its first. -/
lemma copysign_eq (m s : ℚ) : copysign m s = signQ s * |m| := by
  unfold copysign signQ
  split <;> ring

/-- points2 can fail only with the insufficient-points error. -/
lemma points2_error (points : List LatLon) (closed : Bool) (err : GeoError)
    (h : points2 points closed = .error err) : err = .fewPoints := by
  simp only [points2] at h
  split_ifs at h <;>
    first
      | exact (Except.error.inj h).symm
      | exact Except.noConfusion h

/-- With the radius not below EPS, alongTrackDistanceTo succeeds. -/
lemma alongTrack_ok (P : Prim) (p s e : LatLon) (radius : ℚ) (wrap : Bool)
    (hrad : ¬ radius < P.EPS) :
    ∃ v, alongTrackDistanceTo P p s e radius wrap = .ok v := by
  unfold alongTrackDistanceTo trackDistanceTo3
  rw [if_neg hrad]
  dsimp only
  split_ifs <;> exact ⟨_, rfl⟩

/-- With the radius below EPS, alongTrackDistanceTo fails with the
invalid-argument error. -/
lemma alongTrack_err (P : Prim) (p s e : LatLon) (radius : ℚ) (wrap : Bool)
    (hrad : radius < P.EPS) :
    alongTrackDistanceTo P p s e radius wrap = .error .invalidRadius := by
  unfold alongTrackDistanceTo trackDistanceTo3
  rw [if_pos hrad]

/-- With the radius not below EPS, crossTrackDistanceTo succeeds. -/
lemma crossTrack_ok (P : Prim) (p s e : LatLon) (radius : ℚ) (wrap : Bool)
    (hrad : ¬ radius < P.EPS) :
    ∃ v, crossTrackDistanceTo P p s e radius wrap = .ok v := by
  unfold crossTrackDistanceTo trackDistanceTo3
  rw [if_neg hrad]
  exact ⟨_, rfl⟩

/-- With the radius below EPS, crossTrackDistanceTo fails with the
invalid-argument error. -/
lemma crossTrack_err (P : Prim) (p s e : LatLon) (radius : ℚ) (wrap : Bool)
    (hrad : radius < P.EPS) :
    crossTrackDistanceTo P p s e radius wrap = .error .invalidRadius := by
  unfold crossTrackDistanceTo trackDistanceTo3
  rw [if_pos hrad]

/-! ## Claim C1: intersection error taxonomy -/

/-- Claim C1: for non-coincident start points (haversine separation at
least EPS in magnitude), intersection fails with parallel exactly when
either triangle-side sine is within EPS of zero, with infinite exactly
when (beyond that) both turn-angle sines are zero, with ambiguous exactly
when (beyond those) the product of the turn-angle sines is negative, and
in every other case returns an intersection point. -/
theorem spec_C1 (P : Prim) (s1 : LatLon) (b1 : ℚ) (s2 : LatLon) (b2 : ℚ)
    (h : Option ℚ) (wrap : Bool)
    (hr : ¬ |intx_r12 P s1 s2 wrap| < P.EPS) :
    (intersection P s1 b1 s2 b2 h wrap = .error .parallel ↔
      (|intx_x1 P s1 s2 wrap| < P.EPS ∨ |intx_x2 P s1 s2 wrap| < P.EPS)) ∧
    (intersection P s1 b1 s2 b2 h wrap = .error .infinite ↔
      (¬(|intx_x1 P s1 s2 wrap| < P.EPS ∨ |intx_x2 P s1 s2 wrap| < P.EPS) ∧
       intx_sx1 P s1 b1 s2 wrap = 0 ∧ intx_sx2 P s1 s2 b2 wrap = 0)) ∧
    (intersection P s1 b1 s2 b2 h wrap = .error .ambiguous ↔
      (¬(|intx_x1 P s1 s2 wrap| < P.EPS ∨ |intx_x2 P s1 s2 wrap| < P.EPS) ∧
       ¬(intx_sx1 P s1 b1 s2 wrap = 0 ∧ intx_sx2 P s1 s2 b2 wrap = 0) ∧
       intx_sx1 P s1 b1 s2 wrap * intx_sx2 P s1 s2 b2 wrap < 0)) ∧
    ((¬(|intx_x1 P s1 s2 wrap| < P.EPS ∨ |intx_x2 P s1 s2 wrap| < P.EPS) ∧
      ¬(intx_sx1 P s1 b1 s2 wrap = 0 ∧ intx_sx2 P s1 s2 b2 wrap = 0) ∧
      ¬ intx_sx1 P s1 b1 s2 wrap * intx_sx2 P s1 s2 b2 wrap < 0) →
      ∃ pt, intersection P s1 b1 s2 b2 h wrap = .ok pt) := by
  unfold intersection
  rw [if_neg hr]
  by_cases hp : |intx_x1 P s1 s2 wrap| < P.EPS ∨ |intx_x2 P s1 s2 wrap| < P.EPS
  · rw [if_pos hp]
    refine ⟨?_, ?_, ?_, ?_⟩ <;> simp [hp]
  · rw [if_neg hp]
    by_cases hi : intx_sx1 P s1 b1 s2 wrap = 0 ∧ intx_sx2 P s1 s2 b2 wrap = 0
    · rw [if_pos hi]
      refine ⟨?_, ?_, ?_, ?_⟩ <;> simp [hp, hi]
    · rw [if_neg hi]
      by_cases ha : intx_sx1 P s1 b1 s2 wrap * intx_sx2 P s1 s2 b2 wrap < 0
      · rw [if_pos ha]
        refine ⟨?_, ?_, ?_, ?_⟩ <;> simp [hp, hi, ha]
      · rw [if_neg ha]
        refine ⟨?_, ?_, ?_, ?_⟩ <;> simp [hp, hi, ha]

/-- Witness for C1: a concrete non-coincident input on which the
intersection fails with the parallel error. -/
theorem spec_C1_witness :
    intersection Ptriv ⟨0, 0, 0⟩ 0 ⟨1, 1, 0⟩ 0 none false = .error .parallel := by
  have h1 : ¬ |intx_r12 Ptriv ⟨0, 0, 0⟩ ⟨1, 1, 0⟩ false| < Ptriv.EPS := by
    norm_num [intx_r12, intx_db, unrollPI, Ptriv]
  exact (spec_C1 Ptriv ⟨0, 0, 0⟩ 0 ⟨1, 1, 0⟩ 0 none false h1).1.mpr
    (Or.inl (by norm_num [intx_x1, intx_r12, intx_db, unrollPI, Ptriv]))

/-! ## Claim C3: along-track distance formula -/

/-- Claim C3: for a radius at least EPS, alongTrackDistanceTo returns
sign(cos(b - e)) * acos(clamp(cos r / cos x, -1, 1)) * radius, except
exactly 0 when the magnitude of cos x is within EPS of zero, with r, b, e
and x as in the claim (the hypotheses record that the real cosine is even
and the real clamped inverse cosine is non-negative). -/
theorem spec_C3 (P : Prim) (p s e : LatLon) (radius : ℚ) (wrap : Bool)
    (hE : 0 < P.EPS) (hcos : ∀ t, P.cos (-t) = P.cos t)
    (hacos : ∀ q, 0 ≤ P.acos q) (hrad : ¬ radius < P.EPS) :
    alongTrackDistanceTo P p s e radius wrap =
      .ok (alongTrackSpec P p s e radius wrap) := by
  have h0 : radius ≠ 0 := ne_of_gt (lt_of_lt_of_le hE (le_of_not_lt hrad))
  have hflip : ∀ u v : ℚ, P.cos (u - v) = P.cos (v - u) := by
    intro u v
    rw [← neg_sub v u, hcos]
  simp only [alongTrackDistanceTo, trackDistanceTo3, distanceTo, alongTrackSpec,
    acos1, if_neg hrad, mul_div_cancel_right₀ _ h0]
  split_ifs with hc
  · rw [copysign_eq, abs_of_nonneg (hacos _)]
    conv_lhs => rw [hflip]
  · rfl

/-- Witness for C3: the along-track theorem evaluated at a concrete
radius equal to EPS. -/
theorem spec_C3_witness :
    alongTrackDistanceTo Ptriv ⟨0, 0, 0⟩ ⟨1, 1, 0⟩ ⟨2, 2, 0⟩ 1 false =
      .ok (alongTrackSpec Ptriv ⟨0, 0, 0⟩ ⟨1, 1, 0⟩ ⟨2, 2, 0⟩ 1 false) :=
  spec_C3 Ptriv ⟨0, 0, 0⟩ ⟨1, 1, 0⟩ ⟨2, 2, 0⟩ 1 false (by norm_num [Ptriv])
    (fun _ => rfl) (fun _ => le_refl 0) (by norm_num [Ptriv])

/-! ## Claim C6: radius validation -/

/-- Counterexample to C6 as stated: at radius equal to EPS (hence
radius at most EPS) alongTrackDistanceTo succeeds, and at radius 0 both
areaOf and perimeterOf succeed - none of them fails with an
invalid-argument error. -/
theorem spec_C6_cex :
    (1 : ℚ) ≤ Ptriv.EPS ∧
    alongTrackDistanceTo Ptriv ⟨0, 0, 0⟩ ⟨1, 1, 0⟩ ⟨2, 2, 0⟩ 1 false = .ok 0 ∧
    (0 : ℚ) ≤ Ptriv.EPS ∧
    areaOf Ptriv (fun _ _ => false) [⟨0, 0, 0⟩, ⟨1, 0, 0⟩, ⟨2, 0, 0⟩] 0 true = .ok 0 ∧
    perimeterOf Ptriv [⟨0, 0, 0⟩, ⟨1, 0, 0⟩] false 0 true = .ok 0 := by
  refine ⟨by norm_num [Ptriv], ?_, by norm_num [Ptriv], ?_, ?_⟩
  · norm_num [alongTrackDistanceTo, trackDistanceTo3, distanceTo, initialBearingTo,
      unrollPI, Ptriv]
  · norm_num [areaOf, points2, isPoleEnclosedBy, exsGo, unrollPI, Ptriv]
  · norm_num [perimeterOf, points2, radsGo, unrollPI, Ptriv]

/-- Amended claim C6: the two track-distance operations fail with the
invalid-argument error exactly when radius is strictly below EPS (radius
equal to EPS is accepted) and can fail in no other way; areaOf and
perimeterOf perform no radius validation at all - their only failure is
the insufficient-points error. -/
theorem spec_C6_amended (P : Prim) (p s e : LatLon) (radius : ℚ) (wrap : Bool)
    (pol : List LatLon → Bool → Bool) (points : List LatLon) (closed : Bool)
    (r2 : ℚ) (w2 : Bool) :
    (alongTrackDistanceTo P p s e radius wrap = .error .invalidRadius ↔
      radius < P.EPS) ∧
    (crossTrackDistanceTo P p s e radius wrap = .error .invalidRadius ↔
      radius < P.EPS) ∧
    (∀ err, alongTrackDistanceTo P p s e radius wrap = .error err →
      err = .invalidRadius) ∧
    (∀ err, crossTrackDistanceTo P p s e radius wrap = .error err →
      err = .invalidRadius) ∧
    (∀ err, areaOf P pol points r2 w2 = .error err → err = .fewPoints) ∧
    (∀ err, perimeterOf P points closed r2 w2 = .error err → err = .fewPoints) := by
  refine ⟨?_, ?_, ?_, ?_, ?_, ?_⟩
  · constructor
    · intro hh
      by_cases hrad : radius < P.EPS
      · exact hrad
      · obtain ⟨v, hv⟩ := alongTrack_ok P p s e radius wrap hrad
        rw [hv] at hh
        exact Except.noConfusion hh
    · intro hrad
      exact alongTrack_err P p s e radius wrap hrad
  · constructor
    · intro hh
      by_cases hrad : radius < P.EPS
      · exact hrad
      · obtain ⟨v, hv⟩ := crossTrack_ok P p s e radius wrap hrad
        rw [hv] at hh
        exact Except.noConfusion hh
    · intro hrad
      exact crossTrack_err P p s e radius wrap hrad
  · intro err hh
    by_cases hrad : radius < P.EPS
    · rw [alongTrack_err P p s e radius wrap hrad] at hh
      exact (Except.error.inj hh).symm
    · obtain ⟨v, hv⟩ := alongTrack_ok P p s e radius wrap hrad
      rw [hv] at hh
      exact Except.noConfusion hh
  · intro err hh
    by_cases hrad : radius < P.EPS
    · rw [crossTrack_err P p s e radius wrap hrad] at hh
      exact (Except.error.inj hh).symm
    · obtain ⟨v, hv⟩ := crossTrack_ok P p s e radius wrap hrad
      rw [hv] at hh
      exact Except.noConfusion hh
  · intro err hh
    unfold areaOf at hh
    cases hp : points2 points true with
    | error e2 =>
      rw [hp] at hh
      rw [← Except.error.inj hh]
      exact points2_error points true e2 hp
    | ok l =>
      rw [hp] at hh
      exact Except.noConfusion hh
  · intro err hh
    unfold perimeterOf at hh
    cases hp : points2 points closed with
    | error e2 =>
      rw [hp] at hh
      rw [← Except.error.inj hh]
      exact points2_error points closed e2 hp
    | ok l =>
      rw [hp] at hh
      exact Except.noConfusion hh

/-- Witness for C6: the amended theorem evaluated to show a concrete
invalid-radius failure at a radius strictly below EPS. -/
theorem spec_C6_witness :
    alongTrackDistanceTo Ptriv ⟨0, 0, 0⟩ ⟨1, 1, 0⟩ ⟨2, 2, 0⟩ 0 false =
      .error .invalidRadius :=
  (spec_C6_amended Ptriv ⟨0, 0, 0⟩ ⟨1, 1, 0⟩ ⟨2, 2, 0⟩ 0 false
    (fun _ _ => false) [] false 0 false).1.mpr (by norm_num [Ptriv])

/-! ## Claim C4: wrap convention of the pole-enclosure test -/

/-- Counterexample to C4 as stated: two pole predicates that agree on the
consumed polygon at areaOf's own wrap flag (True) nevertheless give
different areas, because areaOf consults the predicate with wrap=False
(source line 684 calls isPoleEnclosedBy with its default wrap). -/
theorem spec_C4_cex :
    points2 pts4 true = .ok pts4 ∧
    polA4 pts4 true = polB4 pts4 true ∧
    areaOf P4inst polA4 pts4 1 true ≠ areaOf P4inst polB4 pts4 1 true := by
  refine ⟨by norm_num [points2, pts4], rfl, ?_⟩
  have h1 : areaOf P4inst polA4 pts4 1 true = .ok 6 := by
    norm_num [areaOf, points2, pts4, polA4, isPoleEnclosedBy, exsGo, unrollPI,
      P4inst, Ptriv]
  have h2 : areaOf P4inst polB4 pts4 1 true = .ok 2 := by
    norm_num [areaOf, points2, pts4, polB4, isPoleEnclosedBy, exsGo, unrollPI,
      P4inst, Ptriv]
  rw [h1, h2]
  simp

/-- Amended claim C4: areaOf consults the pole-enclosure predicate always
with wrap=False, regardless of its own wrap argument; its result depends
on the predicate only through the predicate's value at wrap=False. -/
theorem spec_C4_amended (P : Prim) (pol1 pol2 : List LatLon → Bool → Bool)
    (points : List LatLon) (radius : ℚ) (wrap : Bool)
    (hpol : ∀ m, pol1 m false = pol2 m false) :
    areaOf P pol1 points radius wrap = areaOf P pol2 points radius wrap := by
  unfold areaOf
  cases points2 points true with
  | error e => rfl
  | ok l => simp only [isPoleEnclosedBy, hpol l]

/-- Witness for C4: the amended theorem evaluated at two concrete
predicates that agree at wrap=False. -/
theorem spec_C4_witness :
    areaOf Ptriv (fun _ b => b) pts4 1 true =
      areaOf Ptriv (fun _ _ => false) pts4 1 true :=
  spec_C4_amended Ptriv (fun _ b => b) (fun _ _ => false) pts4 1 true
    (fun _ => rfl)

/-! ## Claim C7: output normalization -/

/-- Counterexample to C7 as stated: with in-range inputs straddling the
antimeridian and wrap set, the coincident-starts branch of intersection
returns a longitude of 180.5 degrees, outside the canonical half-open
interval ending at 180. -/
theorem spec_C7_cex :
    inRange ⟨0, 180, 0⟩ ∧ inRange ⟨0, -179, 0⟩ ∧
    intersection P7inst ⟨0, 180, 0⟩ 0 ⟨0, -179, 0⟩ 0 none true =
      .ok ⟨0, 361 / 2, 0⟩ ∧
    ¬ ((361 : ℚ) / 2 ≤ 180) := by
  refine ⟨by norm_num [inRange], by norm_num [inRange], ?_, by norm_num⟩
  norm_num [intersection, intx_r12, intx_db, intx_b2, unrollPI, favg, P7inst, Ptriv]

/-- Amended claim C7: under the contract that the normalizers degrees90,
degrees180 and to2ll return canonical latitudes and longitudes, every
point-valued result of destination, midpointTo, intermediateTo, meanOf
and of intersection's non-coincident branch is normalized; the
coincident-starts branch of intersection is the sole exception (its raw
coordinate average can leave the canonical longitude interval, as the
counterexample shows). -/
theorem spec_C7_amended (P : Prim)
    (h90 : ∀ t, -90 ≤ P.degrees90 t ∧ P.degrees90 t ≤ 90)
    (h180 : ∀ t, -180 < P.degrees180 t ∧ P.degrees180 t ≤ 180)
    (hll : ∀ v, (-90 ≤ (P.to2ll v).1 ∧ (P.to2ll v).1 ≤ 90) ∧
                (-180 < (P.to2ll v).2 ∧ (P.to2ll v).2 ≤ 180))
    (p other s1 s2 : LatLon) (d brg radius frac b1 b2 : ℚ)
    (hgt : Option ℚ) (wrap : Bool) (points : List LatLon) :
    inRange (destination P p d brg radius hgt) ∧
    inRange (midpointTo P p other hgt wrap) ∧
    inRange (intermediateTo P p other frac hgt wrap) ∧
    (∀ pt, meanOf P points hgt = .ok pt → inRange pt) ∧
    (¬ |intx_r12 P s1 s2 wrap| < P.EPS →
      ∀ pt, intersection P s1 b1 s2 b2 hgt wrap = .ok pt → inRange pt) := by
  refine ⟨?_, ?_, ?_, ?_, ?_⟩
  · exact ⟨h90 _, h180 _⟩
  · exact ⟨h90 _, h180 _⟩
  · exact ⟨h90 _, h180 _⟩
  · intro pt hpt
    unfold meanOf at hpt
    cases hp : points2 points false with
    | error e =>
      rw [hp] at hpt
      exact Except.noConfusion hpt
    | ok l =>
      rw [hp] at hpt
      rw [← Except.ok.inj hpt]
      exact ⟨(hll _).1, (hll _).2⟩
  · intro hr pt hpt
    unfold intersection at hpt
    rw [if_neg hr] at hpt
    by_cases hpar : |intx_x1 P s1 s2 wrap| < P.EPS ∨ |intx_x2 P s1 s2 wrap| < P.EPS
    · rw [if_pos hpar] at hpt
      exact Except.noConfusion hpt
    · rw [if_neg hpar] at hpt
      by_cases hi : intx_sx1 P s1 b1 s2 wrap = 0 ∧ intx_sx2 P s1 s2 b2 wrap = 0
      · rw [if_pos hi] at hpt
        exact Except.noConfusion hpt
      · rw [if_neg hi] at hpt
        by_cases ha : intx_sx1 P s1 b1 s2 wrap * intx_sx2 P s1 s2 b2 wrap < 0
        · rw [if_pos ha] at hpt
          exact Except.noConfusion hpt
        · rw [if_neg ha] at hpt
          rw [← Except.ok.inj hpt]
          exact ⟨h90 _, h180 _⟩

/-- Witness for C7: the amended theorem evaluated at the trivial instance
(whose normalizers return 0) and concrete points. -/
theorem spec_C7_witness :
    inRange (destination Ptriv ⟨3, 4, 5⟩ 1 2 6 none) :=
  (spec_C7_amended Ptriv
    (fun _ => by norm_num [Ptriv]) (fun _ => by norm_num [Ptriv])
    (fun _ => by norm_num [Ptriv])
    ⟨3, 4, 5⟩ ⟨0, 0, 0⟩ ⟨0, 0, 0⟩ ⟨0, 0, 0⟩ 1 2 6 0 0 0 none false []).1

/-! ## Claims C5 and C10: the two enclosure code paths -/

/-- The default-valued last element of a nonempty list does not depend on
the default. -/
lemma getLastD_irrel {α : Type} (l : List α) (h : l ≠ []) (d1 d2 : α) :
    l.getLastD d1 = l.getLastD d2 := by
  cases l with
  | nil => exact absurd rfl h
  | cons a t => rw [List.getLastD_cons, List.getLastD_cons]

/-- The default-valued last element of a nonempty list is a member. -/
lemma getLastD_mem {α : Type} : ∀ (l : List α) (d : α), l ≠ [] → l.getLastD d ∈ l := by
  intro l
  induction l with
  | nil => intro d h; exact absurd rfl h
  | cons a t ih =>
    intro d _
    cases t with
    | nil => simp [List.getLastD]
    | cons b t2 =>
      rw [List.getLastD_cons]
      exact List.mem_cons_of_mem a (ih b (by simp))

/-- Unfolding the edge-normal walk by one step. -/
lemma edgeNormals_cons (P : Prim) (prev q : LatLon) (qs : List LatLon) :
    edgeNormals P prev (q :: qs) =
      cross (toVector3d P prev) (toVector3d P q) :: edgeNormals P q qs := rfl

/-- The edge normals of the closed traversal are the edge-normal walk
starting from the last vertex. -/
lemma gcsOf_eq_edgeNormals (P : Prim) (l : List LatLon) :
    gcsOf P l = edgeNormals P (l.getLastD default) l := rfl

/-- The walk produces one normal per vertex. -/
lemma edgeNormals_length (P : Prim) (prev : LatLon) (qs : List LatLon) :
    (edgeNormals P prev qs).length = qs.length := by
  simp [edgeNormals, List.length_zip]

/-- The closed traversal produces one normal per vertex. -/
lemma gcsOf_length (P : Prim) (l : List LatLon) :
    (gcsOf P l).length = l.length := by
  rw [gcsOf_eq_edgeNormals]
  exact edgeNormals_length P _ l

/-- The last normal of a nonempty walk is the cross product of the two
last vertices' n-vectors. -/
lemma edgeNormals_getLastD (P : Prim) :
    ∀ (l : List LatLon) (prev : LatLon), l ≠ [] →
      (edgeNormals P prev l).getLastD default =
        cross (toVector3d P (l.dropLast.getLastD prev))
              (toVector3d P (l.getLastD default)) := by
  intro l
  induction l with
  | nil => intro prev h; exact absurd rfl h
  | cons q l2 ih =>
    intro prev _
    cases l2 with
    | nil => rfl
    | cons q2 l3 =>
      have hne : edgeNormals P q (q2 :: l3) ≠ [] := by
        intro hc
        have := edgeNormals_length P q (q2 :: l3)
        rw [hc] at this
        simp at this
      rw [edgeNormals_cons, List.getLastD_cons,
          getLastD_irrel _ hne _ default, ih q (by simp)]
      have h1 : (q :: q2 :: l3).dropLast = q :: (q2 :: l3).dropLast := rfl
      rw [h1]
      rw [List.getLastD_cons, List.getLastD_cons, List.getLastD_cons,
          List.getLastD_cons]

/-- The fused numpy-branch loop, in the absence of any negative signed
angle along its chain, returns whether every edge normal classifies the
query on the reference side t0. -/
lemma enclosedLoopN_no_viol (P : Prim) (n0 : V3) (t0 : Bool) :
    ∀ (qs : List LatLon) (prev : LatLon) (g : V3),
      (∀ pr ∈ (g :: edgeNormals P prev qs).zip (edgeNormals P prev qs),
        ¬ P.angleS pr.1 pr.2 n0 < 0) →
      enclosedLoopN P n0 t0 (toVector3d P prev) g qs =
        .ok ((edgeNormals P prev qs).all
          (fun gg => decide (P.PI_2 < P.angle gg n0) == t0)) := by
  intro qs
  induction qs with
  | nil => intro prev g _; rfl
  | cons q qs2 ih =>
    intro prev g hnv
    rw [edgeNormals_cons] at hnv ⊢
    simp only [enclosedLoopN]
    by_cases hti : decide (P.PI_2 < P.angle (cross (toVector3d P prev)
        (toVector3d P q)) n0) = t0
    · rw [if_neg (by simp [hti])]
      have hv0 : ¬ P.angleS g (cross (toVector3d P prev) (toVector3d P q)) n0 < 0 :=
        hnv (g, cross (toVector3d P prev) (toVector3d P q))
          (by simp [List.zip_cons_cons])
      rw [if_neg hv0]
      have htail : ∀ pr ∈ (cross (toVector3d P prev) (toVector3d P q) ::
          edgeNormals P q qs2).zip (edgeNormals P q qs2),
          ¬ P.angleS pr.1 pr.2 n0 < 0 := by
        intro pr hpr
        apply hnv
        simp only [List.zip_cons_cons, List.mem_cons]
        right
        exact hpr
      rw [ih q (cross (toVector3d P prev) (toVector3d P q)) htail]
      simp [hti]
    · rw [if_pos (by simp [hti])]
      simp [hti]

/-- The plain-sequence branch, in the absence of any negative signed
angle between cyclically consecutive normals, returns whether every
non-first edge normal classifies the query like the first. -/
lemma isenclosedPlain_no_viol (P : Prim) (n0 : V3) (l : List LatLon)
    (hnv : ∀ pr ∈ cyclicPairs (gcsOf P l), ¬ P.angleS pr.1 pr.2 n0 < 0) :
    isenclosedPlain P n0 l =
      .ok ((gcsOf P l).tail.all
        (fun g => decide (P.PI_2 < P.angle g n0) ==
          decide (P.PI_2 < P.angle ((gcsOf P l).headD default) n0))) := by
  unfold isenclosedPlain
  have hany : ((cyclicPairs (gcsOf P l)).any
      (fun pr => decide (P.angleS pr.1 pr.2 n0 < 0))) = false := by
    rw [List.any_eq_false]
    intro pr hpr
    simpa using hnv pr hpr
  have hrel : ((gcsOf P l).tail.all
      (fun g => decide (P.PI_2 < P.angle g n0) ==
        decide (P.PI_2 < P.angle ((gcsOf P l).headD default) n0))) =
      !((gcsOf P l).tail.any
        (fun g => decide (P.PI_2 < P.angle g n0) !=
          decide (P.PI_2 < P.angle ((gcsOf P l).headD default) n0))) := by
    rw [List.all_eq_not_any_not]
    rfl
  cases hca : (gcsOf P l).tail.any
      (fun g => decide (P.PI_2 < P.angle g n0) !=
        decide (P.PI_2 < P.angle ((gcsOf P l).headD default) n0)) with
  | true =>
    rw [if_pos hca, hrel, hca]
    rfl
  | false =>
    rw [if_neg (by rw [hca]; exact Bool.false_ne_true), if_neg (by
      rw [hany]; exact Bool.false_ne_true), hrel, hca]
    rfl

/-- For a list of at least two elements, all elements agreeing with the
last under a classifier is the same as all non-first elements agreeing
with the first. -/
lemma all_last_eq_all_head (cls : V3 → Bool) (gcs : List V3) (h2 : 2 ≤ gcs.length) :
    gcs.all (fun g => cls g == cls (gcs.getLastD default)) =
      gcs.tail.all (fun g => cls g == cls (gcs.headD default)) := by
  match gcs, h2 with
  | g0 :: g1 :: gcs2, _ =>
    have hglmem : (g0 :: g1 :: gcs2).getLastD default ∈ g1 :: gcs2 := by
      rw [List.getLastD_cons]
      exact getLastD_mem (g1 :: gcs2) g0 (by simp)
    have hiff : ((g0 :: g1 :: gcs2).all
        (fun g => cls g == cls ((g0 :: g1 :: gcs2).getLastD default)) = true) ↔
        ((g1 :: gcs2).all (fun g => cls g == cls g0) = true) := by
      simp only [List.all_eq_true, beq_iff_eq]
      constructor
      · intro hA b hb
        have hb0 : cls g0 = cls ((g0 :: g1 :: gcs2).getLastD default) :=
          hA g0 (by simp)
        have hbb : cls b = cls ((g0 :: g1 :: gcs2).getLastD default) :=
          hA b (List.mem_cons_of_mem g0 hb)
        rw [hbb, hb0]
      · intro hB b hb
        have hgl : cls ((g0 :: g1 :: gcs2).getLastD default) = cls g0 :=
          hB _ hglmem
        rcases List.mem_cons.mp hb with hb | hb
        · rw [hb, hgl]
        · rw [hB b hb, hgl]
    simp only [List.tail_cons, List.headD_cons]
    cases hA : (g0 :: g1 :: gcs2).all
        (fun g => cls g == cls ((g0 :: g1 :: gcs2).getLastD default)) with
    | true =>
      rw [hiff.mp hA]
    | false =>
      cases hB : (g1 :: gcs2).all (fun g => cls g == cls g0) with
      | true =>
        rw [hiff.mpr hB] at hA
        exact Bool.noConfusion hA
      | false => rfl

/-- points2 in polygon mode yields at least three points. -/
lemma points2_ok_length (points : List LatLon) (l : List LatLon)
    (h : points2 points true = .ok l) : 3 ≤ l.length := by
  simp only [points2, if_true] at h
  split_ifs at h with h1 h2 h2 <;>
    first
      | exact Except.noConfusion h
      | (rw [← Except.ok.inj h]; omega)

/-- Reading off the dispatched branch of isenclosedBy once points2
succeeds. -/
lemma isenclosedBy_ok (P : Prim) (isNumpy : Bool) (p : LatLon)
    (points l : List LatLon) (h : points2 points true = .ok l) :
    isenclosedBy P isNumpy p points =
      if isNumpy then isenclosedNumpy P (toVector3d P p) l
      else isenclosedPlain P (toVector3d P p) l := by
  unfold isenclosedBy
  rw [h]

/-- Counterexample to C5 as stated: a concrete non-convex triangle and
query on which the bulk-numeric-array branch raises the non-convex error
while the plain-sequence branch returns False. -/
theorem spec_C5_cex :
    isenclosedBy P5inst true q5 pts5 = .error .nonConvex ∧
    isenclosedBy P5inst false q5 pts5 = .ok false := by
  constructor
  · norm_num [isenclosedBy, points2, pts5, q5, isenclosedNumpy, enclosedLoopN,
      toVector3d, cross, P5inst, Ptriv]
  · norm_num [isenclosedBy, points2, pts5, q5, isenclosedPlain, gcsOf,
      cyclicPairs, toVector3d, cross, P5inst, Ptriv]

/-- Amended claim C5: whenever no negative signed angle occurs between
cyclically consecutive edge normals (the convex case), the two code paths
of isenclosedBy agree on every input; the counterexample shows they can
differ otherwise. -/
theorem spec_C5_amended (P : Prim) (p : LatLon) (points : List LatLon)
    (hnv : ∀ l, points2 points true = .ok l →
      ∀ pr ∈ cyclicPairs (gcsOf P l), ¬ P.angleS pr.1 pr.2 (toVector3d P p) < 0) :
    isenclosedBy P true p points = isenclosedBy P false p points := by
  cases hp : points2 points true with
  | error e =>
    unfold isenclosedBy
    rw [hp]
  | ok l =>
    rw [isenclosedBy_ok P true p points l hp, isenclosedBy_ok P false p points l hp,
      if_pos rfl, if_neg Bool.false_ne_true]
    have h3 : 3 ≤ l.length := points2_ok_length points l hp
    have hln : l ≠ [] := by
      intro hc
      rw [hc] at h3
      simp at h3
    have hdln : l.dropLast ≠ [] := by
      intro hc
      have := congrArg List.length hc
      rw [List.length_dropLast] at this
      simp at this
      omega
    have hnv2 := hnv l hp
    have hgc1 : cross (toVector3d P (l.dropLast.getLastD default))
        (toVector3d P (l.getLastD default)) = (gcsOf P l).getLastD default := by
      rw [gcsOf_eq_edgeNormals, edgeNormals_getLastD P l _ hln,
        getLastD_irrel _ hdln default (l.getLastD default)]
    simp only [isenclosedNumpy]
    rw [hgc1]
    have hchain : ∀ pr ∈ (((gcsOf P l).getLastD default) ::
        edgeNormals P (l.getLastD default) l).zip
          (edgeNormals P (l.getLastD default) l),
        ¬ P.angleS pr.1 pr.2 (toVector3d P p) < 0 := by
      intro pr hpr
      exact hnv2 pr hpr
    rw [enclosedLoopN_no_viol P (toVector3d P p) _ l (l.getLastD default)
      ((gcsOf P l).getLastD default) hchain,
      isenclosedPlain_no_viol P (toVector3d P p) l hnv2]
    rw [← gcsOf_eq_edgeNormals]
    rw [all_last_eq_all_head (fun g => decide (P.PI_2 < P.angle g (toVector3d P p)))
      (gcsOf P l) (by rw [gcsOf_length]; omega)]

/-- Witness for C5: the amended equivalence evaluated at the trivial
instance (whose signed angle is never negative) on a concrete
triangle. -/
theorem spec_C5_witness :
    isenclosedBy Ptriv true q5 pts5 = isenclosedBy Ptriv false q5 pts5 :=
  spec_C5_amended Ptriv q5 pts5
    (fun _ _ pr _ => by norm_num [Ptriv])

/-- Claim C10: a concrete non-convex polygon (some cyclically consecutive
edge normals have a negative signed angle) and a query point whose side
classification on some edge differs from that of the first edge, on which
the plain-sequence path of isenclosedBy returns False instead of raising
the non-convex error. -/
theorem spec_C10 :
    isenclosedBy P5inst false q5 pts5 = .ok false ∧
    (cyclicPairs (gcsOf P5inst pts5)).any
      (fun pr => decide (P5inst.angleS pr.1 pr.2 (toVector3d P5inst q5) < 0)) = true ∧
    decide (P5inst.PI_2 < P5inst.angle ((gcsOf P5inst pts5).getD 1 default)
        (toVector3d P5inst q5)) ≠
      decide (P5inst.PI_2 < P5inst.angle ((gcsOf P5inst pts5).headD default)
        (toVector3d P5inst q5)) := by
  refine ⟨?_, ?_, ?_⟩
  · norm_num [isenclosedBy, points2, pts5, q5, isenclosedPlain, gcsOf,
      cyclicPairs, toVector3d, cross, P5inst, Ptriv]
  · norm_num [gcsOf, cyclicPairs, pts5, q5, toVector3d, cross, P5inst, Ptriv]
  · norm_num [gcsOf, cyclicPairs, pts5, q5, toVector3d, cross, P5inst, Ptriv]

/-! ## Claim C2: the area formula -/

/-- unrollPI with wrap off returns the raw difference and the raw second
longitude. -/
lemma unrollPI_false (P : Prim) (b1 b2 : ℚ) :
    unrollPI P b1 b2 false = (b2 - b1, b2) := rfl

/-- unrollPI with wrap on returns the wrapped difference and the first
longitude plus it. -/
lemma unrollPI_true (P : Prim) (b1 b2 : ℚ) :
    unrollPI P b1 b2 true = (P.wrapPI (b2 - b1), b1 + P.wrapPI (b2 - b1)) := rfl

/-- With wrap off the threaded excess loop carries the raw previous
longitude, so it is the per-edge map. -/
lemma exsGo_false_eq (P : Prim) :
    ∀ (qs : List LatLon) (p : LatLon),
      exsGo P false (P.tan_2 (P.radians p.lat)) (P.radians p.lon) qs =
        ((p :: qs).zip qs).map (exsPair P false) := by
  intro qs
  induction qs with
  | nil => intro p; rfl
  | cons q qs2 ih =>
    intro p
    simp only [exsGo, unrollPI_false, List.zip_cons_cons, List.map_cons, ih q]
    rfl

/-- With wrap on, an offset of the carried longitude of the form
wrapPI y - y does not change the wrapped difference (the hypothesis is
the 2-pi periodicity of the real wrapPI), so the threading collapses to
the per-edge map with per-edge wrapped differences. -/
lemma exsGo_true_eq (P : Prim)
    (hper : ∀ x y, P.wrapPI (x - (P.wrapPI y - y)) = P.wrapPI x) :
    ∀ (qs : List LatLon) (p : LatLon) (off : ℚ),
      (off = 0 ∨ ∃ y, off = P.wrapPI y - y) →
      exsGo P true (P.tan_2 (P.radians p.lat)) (P.radians p.lon + off) qs =
        ((p :: qs).zip qs).map (exsPair P true) := by
  intro qs
  induction qs with
  | nil => intro p off _; rfl
  | cons q qs2 ih =>
    intro p off hoff
    have harg : P.wrapPI (P.radians q.lon - (P.radians p.lon + off)) =
        P.wrapPI (P.radians q.lon - P.radians p.lon) := by
      rcases hoff with h0 | ⟨y, hy⟩
      · rw [h0, add_zero]
      · rw [hy]
        have hr : P.radians q.lon - (P.radians p.lon + (P.wrapPI y - y)) =
            (P.radians q.lon - P.radians p.lon) - (P.wrapPI y - y) := by ring
        rw [hr, hper]
    simp only [exsGo, unrollPI_true, List.zip_cons_cons, List.map_cons]
    rw [harg]
    have hb : P.radians p.lon + off +
        P.wrapPI (P.radians q.lon - P.radians p.lon) =
        P.radians q.lon + (P.wrapPI (P.radians q.lon - (P.radians p.lon + off)) -
          (P.radians q.lon - (P.radians p.lon + off))) := by
      rw [harg]
      ring
    rw [hb, ih q _ (Or.inr ⟨_, rfl⟩)]
    rfl

/-- Once points2 succeeds, areaOf is the absolute collapsed sum, doubled,
pole-adjusted and scaled by the squared radius. -/
lemma areaOf_eq (P : Prim) (pol : List LatLon → Bool → Bool)
    (points l : List LatLon) (radius : ℚ) (wrap : Bool)
    (hp : points2 points true = .ok l)
    (hper : ∀ x y, P.wrapPI (x - (P.wrapPI y - y)) = P.wrapPI x) :
    areaOf P pol points radius wrap =
      .ok |(if isPoleEnclosedBy pol l false then |areaSum P wrap l * 2| - P.PI2
            else areaSum P wrap l * 2) * radius ^ 2| := by
  unfold areaOf
  rw [hp]
  have hgo : exsGo P wrap (P.tan_2 (P.radians (l.getLastD default).lat))
      (P.radians (l.getLastD default).lon) l =
      ((l.getLastD default :: l).zip l).map (exsPair P wrap) := by
    cases wrap with
    | false => exact exsGo_false_eq P l (l.getLastD default)
    | true =>
      have h := exsGo_true_eq P hper l (l.getLastD default) 0 (Or.inl rfl)
      rw [add_zero] at h
      exact h
  simp only [hgo]
  rfl

/-- The absolute value of a quantity times a squared radius. -/
lemma abs_mul_sq (x r : ℚ) : |x * r ^ 2| = |x| * r ^ 2 := by
  rw [abs_mul, abs_of_nonneg (sq_nonneg r)]

/-- Claim C2: for a polygon accepted by points2 (at least 3 points) and
any radius, areaOf returns the claim's formula - the absolute
(pole-adjusted) compensated sum of the per-edge doubled half-latitude-
tangent excess terms, scaled by the squared radius - and that value is
non-negative.  The hypothesis is the 2-pi periodicity of wrapPI, under
which the source's unroll threading collapses to per-edge differences. -/
theorem spec_C2 (P : Prim) (pol : List LatLon → Bool → Bool)
    (points l : List LatLon) (radius : ℚ) (wrap : Bool)
    (hp : points2 points true = .ok l)
    (hper : ∀ x y, P.wrapPI (x - (P.wrapPI y - y)) = P.wrapPI x) :
    areaOf P pol points radius wrap =
      .ok (areaOfSpec P (isPoleEnclosedBy pol l false) l radius wrap) ∧
    0 ≤ areaOfSpec P (isPoleEnclosedBy pol l false) l radius wrap := by
  have hS : ((cyclicPairs l).map (excessSpec P wrap)).sum = areaSum P wrap l * 2 := by
    rw [show excessSpec P wrap = fun e => 2 * exsPair P wrap e from rfl,
      List.sum_map_mul_left]
    unfold areaSum
    ring
  constructor
  · rw [areaOf_eq P pol points l radius wrap hp hper]
    unfold areaOfSpec
    rw [hS, abs_mul_sq]
  · unfold areaOfSpec
    exact mul_nonneg (abs_nonneg _) (sq_nonneg _)

/-- Witness for C2: the area formula evaluated on a concrete triangle. -/
theorem spec_C2_witness :
    areaOf Ptriv (fun _ _ => false) [⟨0, 0, 0⟩, ⟨1, 0, 0⟩, ⟨2, 0, 0⟩] 5 true =
      .ok (areaOfSpec Ptriv
        (isPoleEnclosedBy (fun _ _ => false) [⟨0, 0, 0⟩, ⟨1, 0, 0⟩, ⟨2, 0, 0⟩] false)
        [⟨0, 0, 0⟩, ⟨1, 0, 0⟩, ⟨2, 0, 0⟩] 5 true) ∧
    0 ≤ areaOfSpec Ptriv
        (isPoleEnclosedBy (fun _ _ => false) [⟨0, 0, 0⟩, ⟨1, 0, 0⟩, ⟨2, 0, 0⟩] false)
        [⟨0, 0, 0⟩, ⟨1, 0, 0⟩, ⟨2, 0, 0⟩] 5 true :=
  spec_C2 Ptriv (fun _ _ => false) [⟨0, 0, 0⟩, ⟨1, 0, 0⟩, ⟨2, 0, 0⟩]
    [⟨0, 0, 0⟩, ⟨1, 0, 0⟩, ⟨2, 0, 0⟩] 5 true (by norm_num [points2])
    (fun _ _ => rfl)

/-! ## Claim C8: area under vertex reversal -/

/-- Consecutive pairs of a two-or-more element list. -/
lemma consecPairs_cons_cons {α : Type} (a b : α) (l : List α) :
    consecPairs (a :: b :: l) = (a, b) :: consecPairs (b :: l) := rfl

/-- Appending a final element appends the final edge. -/
lemma consecPairs_append_singleton {α : Type} :
    ∀ (l : List α) (y : α), l ≠ [] →
      consecPairs (l ++ [y]) = consecPairs l ++ [(l.getLastD y, y)] := by
  intro l
  induction l with
  | nil => intro y h; exact absurd rfl h
  | cons a l2 ih =>
    intro y _
    cases l2 with
    | nil => rfl
    | cons b l3 =>
      rw [show (a :: b :: l3) ++ [y] = a :: ((b :: l3) ++ [y]) from rfl,
        show consecPairs (a :: ((b :: l3) ++ [y])) =
          (a, b) :: consecPairs ((b :: l3) ++ [y]) from rfl,
        ih y (by simp), List.getLastD_cons, List.getLastD_cons, List.getLastD_cons,
        consecPairs_cons_cons, List.cons_append]

/-- The default-valued last element of a reversed list is its head. -/
lemma getLastD_reverse {α : Type} (l : List α) (d : α) :
    l.reverse.getLastD d = l.headD d := by
  rw [List.getLastD_eq_getLast?, List.getLast?_reverse, List.headD_eq_head?]

/-- The default-valued head of a reversed list is its last element. -/
lemma headD_reverse {α : Type} (l : List α) (d : α) :
    l.reverse.headD d = l.getLastD d := by
  rw [List.headD_eq_head?, List.head?_reverse, List.getLastD_eq_getLast?]

/-- The consecutive pairs of a reversed list are the swapped, reversed
consecutive pairs. -/
lemma consecPairs_reverse {α : Type} :
    ∀ (l : List α), consecPairs l.reverse = ((consecPairs l).reverse).map Prod.swap := by
  intro l
  induction l with
  | nil => rfl
  | cons a l2 ih =>
    cases l2 with
    | nil => rfl
    | cons b l3 =>
      rw [List.reverse_cons,
        consecPairs_append_singleton _ a (by simp),
        ih, getLastD_reverse, consecPairs_cons_cons]
      simp [List.map_append]

/-- The cyclic pairs of a nonempty list are the closing edge followed by
the consecutive pairs. -/
lemma cyclicPairs_eq {α : Type} [Inhabited α] (m : List α) (hm : m ≠ []) :
    cyclicPairs m = (m.getLastD default, m.headD default) :: consecPairs m := by
  cases m with
  | nil => exact absurd rfl hm
  | cons x m2 => rfl

/-- The last element of a list with an appended singleton. -/
lemma getLastD_append_singleton {α : Type} (l : List α) (a d : α) :
    (l ++ [a]).getLastD d = a := by
  rw [List.getLastD_eq_getLast?, List.getLast?_concat]
  rfl

/-- Edge term with wrap off, written out. -/
lemma exsPair_false (P : Prim) (e : LatLon × LatLon) :
    exsPair P false e =
      P.atan2 (P.tan_2 (P.radians e.2.lon - P.radians e.1.lon) *
          (P.tan_2 (P.radians e.1.lat) + P.tan_2 (P.radians e.2.lat)))
        (1 + P.tan_2 (P.radians e.1.lat) * P.tan_2 (P.radians e.2.lat)) := rfl

/-- Edge term with wrap on, written out. -/
lemma exsPair_true (P : Prim) (e : LatLon × LatLon) :
    exsPair P true e =
      P.atan2 (P.tan_2 (P.wrapPI (P.radians e.2.lon - P.radians e.1.lon)) *
          (P.tan_2 (P.radians e.1.lat) + P.tan_2 (P.radians e.2.lat)))
        (1 + P.tan_2 (P.radians e.1.lat) * P.tan_2 (P.radians e.2.lat)) := rfl

/-- Traversing an edge backwards negates its excess term, given the
oddness of the real atan2 (in its first argument on the right
half-plane), of the half-angle tangent and of wrapPI. -/
lemma exsPair_swap (P : Prim) (wrap : Bool)
    (hatan : ∀ y x, P.atan2 (-y) x = -P.atan2 y x)
    (htan : ∀ t, P.tan_2 (-t) = -P.tan_2 t)
    (hwodd : ∀ t, P.wrapPI (-t) = -P.wrapPI t)
    (a b : LatLon) : exsPair P wrap (b, a) = - exsPair P wrap (a, b) := by
  cases wrap with
  | false =>
    rw [exsPair_false, exsPair_false]
    have h1 : P.radians a.lon - P.radians b.lon =
        -(P.radians b.lon - P.radians a.lon) := by ring
    rw [h1, htan]
    have h2 : -P.tan_2 (P.radians b.lon - P.radians a.lon) *
        (P.tan_2 (P.radians b.lat) + P.tan_2 (P.radians a.lat)) =
        -(P.tan_2 (P.radians b.lon - P.radians a.lon) *
          (P.tan_2 (P.radians a.lat) + P.tan_2 (P.radians b.lat))) := by ring
    rw [h2, hatan]
    have h3 : 1 + P.tan_2 (P.radians b.lat) * P.tan_2 (P.radians a.lat) =
        1 + P.tan_2 (P.radians a.lat) * P.tan_2 (P.radians b.lat) := by ring
    rw [h3]
  | true =>
    rw [exsPair_true, exsPair_true]
    have h1 : P.radians a.lon - P.radians b.lon =
        -(P.radians b.lon - P.radians a.lon) := by ring
    rw [h1, hwodd, htan]
    have h2 : -P.tan_2 (P.wrapPI (P.radians b.lon - P.radians a.lon)) *
        (P.tan_2 (P.radians b.lat) + P.tan_2 (P.radians a.lat)) =
        -(P.tan_2 (P.wrapPI (P.radians b.lon - P.radians a.lon)) *
          (P.tan_2 (P.radians a.lat) + P.tan_2 (P.radians b.lat))) := by ring
    rw [h2, hatan]
    have h3 : 1 + P.tan_2 (P.radians b.lat) * P.tan_2 (P.radians a.lat) =
        1 + P.tan_2 (P.radians a.lat) * P.tan_2 (P.radians b.lat) := by ring
    rw [h3]

/-- Summing the negated terms negates the sum. -/
lemma sum_map_neg {α : Type} (l : List α) (f : α → ℚ) :
    (l.map (fun e => -f e)).sum = -((l.map f).sum) := by
  induction l with
  | nil => simp
  | cons a t ih =>
    simp only [List.map_cons, List.sum_cons, ih]
    ring

/-- Reversing the vertex order negates the collapsed half-excess sum. -/
lemma areaSum_reverse (P : Prim) (wrap : Bool)
    (hatan : ∀ y x, P.atan2 (-y) x = -P.atan2 y x)
    (htan : ∀ t, P.tan_2 (-t) = -P.tan_2 t)
    (hwodd : ∀ t, P.wrapPI (-t) = -P.wrapPI t)
    (l : List LatLon) (hl : l ≠ []) :
    areaSum P wrap l.reverse = - areaSum P wrap l := by
  unfold areaSum
  rw [cyclicPairs_eq l.reverse (by simp [hl]), cyclicPairs_eq l hl,
    consecPairs_reverse, getLastD_reverse, headD_reverse]
  simp only [List.map_cons, List.sum_cons, List.map_map, List.map_reverse,
    List.sum_reverse]
  have hcongr : (consecPairs l).map (exsPair P wrap ∘ Prod.swap) =
      (consecPairs l).map (fun e => -(exsPair P wrap e)) := by
    apply List.map_congr_left
    intro e _
    show exsPair P wrap (e.2, e.1) = -(exsPair P wrap e)
    rw [exsPair_swap P wrap hatan htan hwodd e.1 e.2]
  rw [hcongr, sum_map_neg,
    exsPair_swap P wrap hatan htan hwodd (l.getLastD default) (l.headD default)]
  ring

/-- Moving the last vertex to the front leaves the cyclic half-excess sum
unchanged (first step: a cons equals the matching append). -/
lemma areaSum_cons_append (P : Prim) (wrap : Bool) (g : LatLon)
    (m0 : List LatLon) (hm0 : m0 ≠ []) :
    areaSum P wrap (g :: m0) = areaSum P wrap (m0 ++ [g]) := by
  obtain ⟨h0, m1, rfl⟩ : ∃ h0 m1, m0 = h0 :: m1 := by
    cases m0 with
    | nil => exact absurd rfl hm0
    | cons h0 m1 => exact ⟨h0, m1, rfl⟩
  unfold areaSum
  rw [cyclicPairs_eq (g :: h0 :: m1) (by simp),
    cyclicPairs_eq ((h0 :: m1) ++ [g]) (by simp),
    consecPairs_append_singleton (h0 :: m1) g (by simp),
    consecPairs_cons_cons, getLastD_append_singleton, List.getLastD_cons]
  simp only [List.cons_append, List.headD_cons, List.map_append, List.map_cons,
    List.sum_append, List.sum_cons, List.map_nil, List.sum_nil]
  ring

/-- Rotating the last vertex to the front leaves the cyclic half-excess
sum unchanged. -/
lemma areaSum_rot1 (P : Prim) (wrap : Bool) (m : List LatLon) (h2 : 2 ≤ m.length) :
    areaSum P wrap (rot1 m) = areaSum P wrap m := by
  have hm : m ≠ [] := by
    intro h
    rw [h] at h2
    simp at h2
  have hd : m.dropLast ≠ [] := by
    intro h
    have := congrArg List.length h
    rw [List.length_dropLast] at this
    simp at this
    omega
  have hrot : rot1 m = m.getLastD default :: m.dropLast := by
    cases m with
    | nil => exact absurd rfl hm
    | cons a t => rfl
  have hdecomp : m.dropLast ++ [m.getLastD default] = m := by
    have hgl : m.getLastD default = m.getLast hm := by
      rw [List.getLastD_eq_getLast?, List.getLast?_eq_getLast m hm]
      rfl
    rw [hgl]
    exact List.dropLast_append_getLast hm
  rw [hrot, areaSum_cons_append P wrap _ _ hd, hdecomp]

/-- Unfolding the rotation of a nonempty list. -/
lemma rot1_eq {α : Type} [Inhabited α] (m : List α) (hm : m ≠ []) :
    rot1 m = m.getLastD default :: m.dropLast := by
  cases m with
  | nil => exact absurd rfl hm
  | cons a t => rfl

/-- Dropping the last element of a reversed list reverses the tail. -/
lemma dropLast_reverse {α : Type} (l : List α) :
    l.reverse.dropLast = l.tail.reverse := by
  cases l with
  | nil => rfl
  | cons a t =>
    rw [List.reverse_cons, List.dropLast_concat]
    rfl

/-- For an explicitly closed list (head equals last), reversing the tail
is rotating the reversed dropLast. -/
lemma tail_reverse_eq_rot1 (points : List LatLon) (h2 : 2 ≤ points.length)
    (hdup : points.head? = points.getLast?) :
    points.tail.reverse = rot1 points.dropLast.reverse := by
  obtain ⟨x, t, rfl⟩ : ∃ x t, points = x :: t := by
    cases points with
    | nil => simp at h2
    | cons x t => exact ⟨x, t, rfl⟩
  have ht : t ≠ [] := by
    intro h
    rw [h] at h2
    simp at h2
  have hgl : t.getLast ht = x := by
    have h1 : (x :: t).getLast? = t.getLast? := by
      cases t with
      | nil => exact absurd rfl ht
      | cons b t2 => rfl
    rw [h1, List.getLast?_eq_getLast t ht] at hdup
    exact (Option.some.inj hdup).symm
  have hdl : (x :: t).dropLast = x :: t.dropLast := by
    cases t with
    | nil => exact absurd rfl ht
    | cons b t2 => rfl
  rw [show (x :: t).tail = t from rfl, hdl, List.reverse_cons,
    rot1_eq _ (by simp), getLastD_append_singleton, List.dropLast_concat]
  conv_lhs => rw [← List.dropLast_append_getLast ht]
  rw [List.reverse_append, hgl]
  rfl

/-- points2 in polygon mode fails on the reversed input exactly as on the
original. -/
lemma points2_reverse_error (points : List LatLon) (e : GeoError)
    (hp : points2 points true = .error e) :
    points2 points.reverse true = .error e := by
  simp only [points2] at hp ⊢
  norm_num at hp ⊢
  by_cases hc : 2 ≤ points.length ∧ points.head? = points.getLast?
  · have hcrev : 2 ≤ points.length ∧ points.getLast? = points.head? :=
      ⟨hc.1, hc.2.symm⟩
    rw [if_pos hc] at hp
    rw [if_pos hcrev]
    by_cases hL : points.dropLast.length < 3
    · rw [if_pos hL] at hp
      rw [if_pos (by
        rw [List.length_reverse, List.length_tail]
        rw [List.length_dropLast] at hL
        omega)]
      exact hp
    · rw [if_neg hL] at hp
      exact Except.noConfusion hp
  · have hcrev : ¬ (2 ≤ points.length ∧ points.getLast? = points.head?) :=
      fun hcc => hc ⟨hcc.1, hcc.2.symm⟩
    rw [if_neg hc] at hp
    rw [if_neg hcrev]
    by_cases hL : points.length < 3
    · rw [if_pos hL] at hp
      rw [if_pos (by rw [List.length_reverse]; exact hL)]
      exact hp
    · rw [if_neg hL] at hp
      exact Except.noConfusion hp

/-- points2 in polygon mode, applied to the reversed input, yields either
the reversed list or (when the explicit closing point was dropped) its
rotation. -/
lemma points2_reverse_ok (points l : List LatLon)
    (hp : points2 points true = .ok l) :
    ∃ l2, points2 points.reverse true = .ok l2 ∧
      (l2 = l.reverse ∨ l2 = rot1 l.reverse) ∧ 3 ≤ l.length := by
  have h3 : 3 ≤ l.length := points2_ok_length points l hp
  simp only [points2] at hp ⊢
  norm_num at hp ⊢
  by_cases hc : 2 ≤ points.length ∧ points.head? = points.getLast?
  · have hcrev : 2 ≤ points.length ∧ points.getLast? = points.head? :=
      ⟨hc.1, hc.2.symm⟩
    rw [if_pos hc] at hp
    rw [if_pos hcrev]
    have hlen : ¬ points.dropLast.length < 3 := by
      intro hL
      rw [if_pos hL] at hp
      exact Except.noConfusion hp
    rw [if_neg hlen] at hp
    have hl : l = points.dropLast := (Except.ok.inj hp).symm
    have hlenrev : ¬ points.tail.reverse.length < 3 := by
      rw [List.length_reverse, List.length_tail]
      rw [List.length_dropLast] at hlen
      omega
    rw [if_neg hlenrev]
    refine ⟨points.tail.reverse, rfl, Or.inr ?_, h3⟩
    rw [hl]
    exact tail_reverse_eq_rot1 points hc.1 hc.2
  · have hcrev : ¬ (2 ≤ points.length ∧ points.getLast? = points.head?) :=
      fun hcc => hc ⟨hcc.1, hcc.2.symm⟩
    rw [if_neg hc] at hp
    rw [if_neg hcrev]
    have hlen : ¬ points.length < 3 := by
      intro hL
      rw [if_pos hL] at hp
      exact Except.noConfusion hp
    rw [if_neg hlen] at hp
    have hl : l = points := (Except.ok.inj hp).symm
    rw [if_neg (by rw [List.length_reverse]; exact hlen)]
    exact ⟨points.reverse, rfl, Or.inl (by rw [hl]), h3⟩

/-- Every value areaOf returns is non-negative (it is an absolute
value). -/
lemma areaOf_nonneg (P : Prim) (pol : List LatLon → Bool → Bool)
    (points : List LatLon) (radius : ℚ) (wrap : Bool) :
    ∀ A, areaOf P pol points radius wrap = .ok A → 0 ≤ A := by
  intro A hA
  unfold areaOf at hA
  cases hp : points2 points true with
  | error e =>
    rw [hp] at hA
    exact Except.noConfusion hA
  | ok l =>
    rw [hp] at hA
    rw [← Except.ok.inj hA]
    exact abs_nonneg _

/-- Claim C8: areaOf is non-negative, and reversing the vertex order
leaves the area unchanged.  The hypotheses record the 2-pi periodicity of
wrapPI, the oddness of atan2 (in its first argument over the right
half-plane, where areaOf evaluates it), of the half-angle tangent and of
wrapPI, and the invariance of the pole-enclosure predicate under reversal
and rotation of the vertex cycle. -/
theorem spec_C8 (P : Prim) (pol : List LatLon → Bool → Bool)
    (points : List LatLon) (radius : ℚ) (wrap : Bool)
    (hper : ∀ x y, P.wrapPI (x - (P.wrapPI y - y)) = P.wrapPI x)
    (hatan : ∀ y x, P.atan2 (-y) x = -P.atan2 y x)
    (htan : ∀ t, P.tan_2 (-t) = -P.tan_2 t)
    (hwodd : ∀ t, P.wrapPI (-t) = -P.wrapPI t)
    (hrev : ∀ m b, pol m.reverse b = pol m b)
    (hrot : ∀ m b, pol (rot1 m) b = pol m b) :
    areaOf P pol points.reverse radius wrap = areaOf P pol points radius wrap ∧
    ∀ A, areaOf P pol points radius wrap = .ok A → 0 ≤ A := by
  refine ⟨?_, areaOf_nonneg P pol points radius wrap⟩
  cases hp : points2 points true with
  | error e =>
    unfold areaOf
    rw [hp, points2_reverse_error points e hp]
  | ok l =>
    obtain ⟨l2, hp2, hl2, h3⟩ := points2_reverse_ok points l hp
    rw [areaOf_eq P pol points.reverse l2 radius wrap hp2 hper,
      areaOf_eq P pol points l radius wrap hp hper]
    have hl : l ≠ [] := by
      intro h
      rw [h] at h3
      simp at h3
    have hrevlen : 2 ≤ l.reverse.length := by
      rw [List.length_reverse]
      omega
    have hSum : areaSum P wrap l2 = - areaSum P wrap l := by
      rcases hl2 with h | h
      · rw [h]
        exact areaSum_reverse P wrap hatan htan hwodd l hl
      · rw [h, areaSum_rot1 P wrap l.reverse hrevlen]
        exact areaSum_reverse P wrap hatan htan hwodd l hl
    have hPol : isPoleEnclosedBy pol l2 false = isPoleEnclosedBy pol l false := by
      rcases hl2 with h | h
      · rw [h]
        exact hrev l false
      · rw [h]
        show pol (rot1 l.reverse) false = pol l false
        rw [hrot, hrev]
    rw [hSum, hPol]
    cases hb : isPoleEnclosedBy pol l false with
    | true =>
      rw [if_pos rfl, if_pos rfl]
      have hneg : -areaSum P wrap l * 2 = -(areaSum P wrap l * 2) := by ring
      rw [hneg, abs_neg]
    | false =>
      rw [if_neg Bool.false_ne_true, if_neg Bool.false_ne_true]
      have hneg : -areaSum P wrap l * 2 * radius ^ 2 =
          -(areaSum P wrap l * 2 * radius ^ 2) := by ring
      rw [hneg, abs_neg]

/-- Witness for C8: the reversal theorem evaluated on a concrete
triangle. -/
theorem spec_C8_witness :
    areaOf Ptriv (fun _ _ => false)
        ([⟨0, 0, 0⟩, ⟨1, 0, 0⟩, ⟨2, 0, 0⟩] : List LatLon).reverse 7 true =
      areaOf Ptriv (fun _ _ => false) [⟨0, 0, 0⟩, ⟨1, 0, 0⟩, ⟨2, 0, 0⟩] 7 true ∧
    ∀ A, areaOf Ptriv (fun _ _ => false) [⟨0, 0, 0⟩, ⟨1, 0, 0⟩, ⟨2, 0, 0⟩] 7 true =
      .ok A → 0 ≤ A :=
  spec_C8 Ptriv (fun _ _ => false) [⟨0, 0, 0⟩, ⟨1, 0, 0⟩, ⟨2, 0, 0⟩] 7 true
    (fun _ _ => rfl) (fun _ _ => by norm_num [Ptriv])
    (fun _ => rfl) (fun _ => by norm_num [Ptriv])
    (fun _ _ => rfl) (fun _ _ => rfl)

end PyGeo
